import Mathlib

/-!
Shallow embedding of `src/study_planner.py` (StudyOS student planner).

The program keeps two in-memory collections in the Streamlit session state:
`tasks` (a Python list of dicts with keys Subject, Chapter, Topic, Due Date,
Priority, Status) and `resources` (a list of dicts with keys Subject, Type,
Content and, for links, Desc).  The button handlers and the dashboard KPI /
chart computations are modelled below as pure functions on Lean lists.
Machine arithmetic: the Python expression `int((completed / total) * 100)`
evaluates in IEEE-754 binary64: the quotient is rounded to the nearest
double (ties to even, 53-bit significand, exponent clamped at -1074 for
gradual underflow), the product with the exactly representable 100 is
rounded again, and `int` truncates toward zero.  Both roundings are
modelled exactly below on scaled natural numbers (a non-negative double is
a value `m * 2 ^ e`); overflow to infinity is not modelled, as every value
arising here is below 2^7.  This matters: the double evaluation of
`(29/100)*100` is 28.999999999999996, so the code shows 28 where exact
arithmetic gives 29.
-/

namespace StudyPlanner

/-- A task record as built by the "Add Task" handler
(`src/study_planner.py`, lines 99-106).  `Due Date` is written `DueDate`;
dates and priorities are carried as opaque strings. -/
structure Task where
  Subject : String
  Chapter : String
  Topic : String
  DueDate : String
  Priority : String
  Status : String
deriving DecidableEq, Repr

/-- A resource record as built by the "Save Link" / "Add Video" handlers
(`src/study_planner.py`, lines 165-170 and 183-187).  The `Type` key is
written `Type'` (Lean reserves `Type`); the video handler stores no `Desc`
key, modelled as `none`. -/
structure Resource where
  Subject : String
  Type' : String
  Content : String
  Desc : Option String
deriving DecidableEq, Repr

/-- The error taxonomy of the specification (section 7). -/
inductive PlannerError where
  | ValidationError
  | NotFoundError
deriving DecidableEq, Repr

/-- Fuel-bounded binary logarithm: `log2Aux fuel n` is `⌊log2 n⌋` for
`1 ≤ n ≤ fuel` (structural recursion so that concrete values reduce in the
kernel). -/
def log2Aux : Nat → Nat → Nat
  | 0, _ => 0
  | fuel + 1, n => if 2 ≤ n then log2Aux fuel (n / 2) + 1 else 0

/-- `⌊log2 n⌋` for positive `n`. -/
def nlog2 (n : Nat) : Nat := log2Aux n n

/-- Round `a / b` to the nearest integer, ties to even — the rounding mode
of IEEE-754 binary64 arithmetic. -/
def rhalfEven (a b : Nat) : Nat :=
  let q := a / b
  let r := a % b
  if 2 * r < b then q
  else if b < 2 * r then q + 1
  else if q % 2 = 0 then q else q + 1

/-- `⌊log2 (num / den)⌋` for positive `num`, `den`: the exponent of the
leading binary digit of the positive rational `num / den`. -/
def ilog2 (num den : Nat) : Int :=
  if den * 2 ^ nlog2 num ≤ num * 2 ^ nlog2 den then
    (nlog2 num : Int) - (nlog2 den : Int)
  else (nlog2 num : Int) - (nlog2 den : Int) - 1

/-- Round the rational `(num / den) / 2 ^ e` to the nearest integer, ties
to even. -/
def roundAtScale (num den : Nat) (e : Int) : Nat :=
  if 0 ≤ e then rhalfEven num (den * 2 ^ e.toNat)
  else rhalfEven (num * 2 ^ (-e).toNat) den

/-- IEEE-754 binary64 rounding of the non-negative rational `num / den`
(round to nearest, ties to even): the result is the pair `(m, e)`
representing the double `m * 2 ^ e`.  The scale is `⌊log2 (num/den)⌋ - 52`
(53-bit significand), clamped at `-1074` below the normal range (gradual
underflow); overflow to infinity is not modelled. -/
def flScaled (num den : Nat) : Nat × Int :=
  if num = 0 then (0, 0)
  else
    let l := ilog2 num den - 52
    let e := if l ≤ -1074 then -1074 else l
    (roundAtScale num den e, e)

/-- The scaled value `m * 2 ^ e` as a fraction of natural numbers. -/
def scaledToFrac (m : Nat) (e : Int) : Nat × Nat :=
  if 0 ≤ e then (m * 2 ^ e.toNat, 1) else (m, 2 ^ (-e).toNat)

/-- `⌊m * 2 ^ e⌋`: truncation of the non-negative scaled value to an
integer, as Python's `int(...)` does on a non-negative float. -/
def floorAtScale (m : Nat) (e : Int) : Nat :=
  if 0 ≤ e then m * 2 ^ e.toNat else m / 2 ^ (-e).toNat

/-- The IEEE-754 binary64 evaluation of `int((c / t) * 100)`
(`src/study_planner.py`, line 49): round `c / t` to a double, multiply by
the exactly representable 100 and round again, then truncate toward zero. -/
def doublePercentTrunc (c t : Nat) : Nat :=
  let y := flScaled c t
  let p := scaledToFrac (100 * y.1) y.2
  let z := flScaled p.1 p.2
  floorAtScale z.1 z.2

/-- The exact rational value of a scaled pair `(m, e)`, namely `m * 2 ^ e`
(used to state and prove the rounding-error bounds). -/
def valQ (p : Nat × Int) : ℚ := (p.1 : ℚ) * (2 : ℚ) ^ p.2

/-- `get_subjects` (`src/study_planner.py`, lines 22-25): the fixed default
list if no tasks are stored, otherwise `list(set(...))` of the stored
Subject values.  The Python set iteration order is unspecified; it is
modelled by `List.dedup`, which likewise yields each distinct value once. -/
def get_subjects (tasks : List Task) : List String :=
  if tasks = [] then ["Math", "Physics", "History", "Biology"]
  else (tasks.map (·.Subject)).dedup

/-- The KPI row computed on the dashboard (`src/study_planner.py`,
lines 46-49). -/
structure Kpis where
  total : Nat
  completed : Nat
  pending : Nat
  completionRatePercent : Nat
deriving DecidableEq, Repr

/-- Dashboard KPI computation (`src/study_planner.py`, lines 46-49):
`total_tasks = len(df)`, `completed = len(df[df.Status == "Done"])`,
`pending = total_tasks - completed`,
`completion_rate = int((completed / total_tasks) * 100) if total_tasks > 0 else 0`,
the float expression modelled exactly by `doublePercentTrunc` (IEEE-754
binary64 division, multiplication by 100 and truncation toward zero). -/
def computeKpis (tasks : List Task) : Kpis :=
  let total_tasks := tasks.length
  let completed := (tasks.filter (fun t => t.Status == "Done")).length
  let pending := total_tasks - completed
  let completion_rate :=
    if total_tasks > 0 then doublePercentTrunc completed total_tasks else 0
  ⟨total_tasks, completed, pending, completion_rate⟩

/-- The "Add Task" button handler (`src/study_planner.py`, lines 97-110):
`if subject and chapter:` appends the new record with `Status = "Pending"`,
`else` reports an error and appends nothing.  Python string truthiness makes
the guard exactly "both strings are non-empty". -/
def addTask (tasks : List Task) (subject chapter topic due_date priority : String) :
    Except PlannerError (List Task) :=
  if subject ≠ "" ∧ chapter ≠ "" then
    .ok (tasks ++ [⟨subject, chapter, topic, due_date, priority, "Pending"⟩])
  else
    .error .ValidationError

/-- The task store after one click of "Add Task": the appended list on the
success branch, the unchanged store on the error branch. -/
def addTaskState (tasks : List Task) (subject chapter topic due_date priority : String) :
    List Task :=
  match addTask tasks subject chapter topic due_date priority with
  | .ok tasks' => tasks'
  | .error _ => tasks

/-- The "Save Link" button handler (`src/study_planner.py`, lines 164-171):
appends unconditionally, with no validation of `link_url`. -/
def saveLink (resources : List Resource) (selected_subject link_url link_desc : String) :
    List Resource :=
  resources ++ [⟨selected_subject, "Link", link_url, some link_desc⟩]

/-- The "Add Video" button handler (`src/study_planner.py`, lines 182-187):
appends unconditionally, with no validation of `video_url` and no `Desc` key. -/
def addVideo (resources : List Resource) (selected_subject video_url : String) :
    List Resource :=
  resources ++ [⟨selected_subject, "Video", video_url, none⟩]

/-- Modelled from the spec: `removeTask(position)` has no implementation in
`src/study_planner.py` (the task-table editor's row deletions are never
written back to the store, lines 141-142); section 4.1 of the spec defines
it as deleting the task at `position`, failing with `NotFoundError` when
`position` is out of range. -/
def removeTask (tasks : List Task) (position : Nat) : Except PlannerError (List Task) :=
  if position < tasks.length then .ok (tasks.eraseIdx position) else .error .NotFoundError

/-- Three tasks whose subjects are `["Math", "Physics", "Physics"]`, for the
grouping-order scenario. -/
def mathPhysTasks : List Task :=
  [⟨"Math", "Ch1", "T1", "2024-01-10", "High", "Pending"⟩,
   ⟨"Physics", "Ch2", "T2", "2024-01-11", "Low", "Pending"⟩,
   ⟨"Physics", "Ch3", "T3", "2024-01-12", "Low", "Pending"⟩]

/-- A task marked `Done`, for concrete scenarios. -/
def doneTask : Task :=
  ⟨"Math", "Ch1", "Topic A", "2024-01-10", "High", "Done"⟩

/-- A task marked `Pending`, for concrete scenarios. -/
def pendingTask : Task :=
  ⟨"Math", "Ch2", "Topic B", "2024-01-11", "Low", "Pending"⟩

/-- The distinct values of a list in first-seen order: the order in which
pandas' factorization first meets each unique value. -/
def firstSeen (xs : List String) : List String :=
  xs.foldl (fun acc x => if x ∈ acc then acc else acc ++ [x]) []

/-- Stable insertion into a list kept in descending count order: the new
pair is placed in front of the first entry whose count does not exceed its
own.  Under `List.foldr` this keeps ties in their original order. -/
def insertByCountDesc (p : String × Nat) : List (String × Nat) → List (String × Nat)
  | [] => [p]
  | q :: qs => if q.2 ≤ p.2 then p :: q :: qs else q :: insertByCountDesc p qs

/-- Stable sort of (value, count) pairs by descending count. -/
def sortByCountDesc (l : List (String × Nat)) : List (String × Nat) :=
  l.foldr insertByCountDesc []

/-- Model of `pandas.Series.value_counts()` as used on lines 65 and 72:
one (value, count) pair per distinct value of the column, sorted by count
in descending order (most frequent first); ties keep the first-seen order
of the values. -/
def value_counts (xs : List String) : List (String × Nat) :=
  sortByCountDesc ((firstSeen xs).map (fun k => (k, xs.count k)))

/-- `subj_counts` (`src/study_planner.py`, lines 65-66): value counts of the
Subject column. -/
def countBySubject (tasks : List Task) : List (String × Nat) :=
  value_counts (tasks.map (·.Subject))

/-- `status_counts` (`src/study_planner.py`, lines 72-73): value counts of
the Status column. -/
def countByStatus (tasks : List Task) : List (String × Nat) :=
  value_counts (tasks.map (·.Status))

/-- Modelled from the spec's words, for comparison with `computeKpis`
(claim C1): the nearest-integer rounding `round(100 * countDone / totalTasks)`,
written round-half-up on non-negative rationals, `round x = ⌊x + 1/2⌋`. -/
def specCompletionRateRound (countDone totalTasks : Nat) : Nat :=
  (200 * countDone + totalTasks) / (2 * totalTasks)

end StudyPlanner

namespace StudyPlanner

/-- C6: for every task sequence, `completed + pending = total` in the
dashboard KPI computation, since `pending` is defined as `total - completed`
and the completed tasks are a sublist of all tasks. -/
theorem computeKpis_completed_add_pending (tasks : List Task) :
    (computeKpis tasks).completed + (computeKpis tasks).pending = (computeKpis tasks).total := by
  simp only [computeKpis]
  exact Nat.add_sub_cancel' (List.length_filter_le _ tasks)

/-- C7: on the empty task sequence the KPI computation yields all-zero
KPIs; the division is guarded by `total_tasks > 0`, so no division by zero
occurs. -/
theorem computeKpis_nil :
    computeKpis [] = ⟨0, 0, 0, 0⟩ := by
  decide

/-- C8: with non-empty subject and chapter, "Add Task" succeeds, the store
grows by exactly one, the new task is appended at the end with
`Status = "Pending"`, and the previously stored tasks are unchanged in
order. -/
theorem addTask_ok (tasks : List Task) (subject chapter topic due_date priority : String)
    (hs : subject ≠ "") (hc : chapter ≠ "") :
    addTask tasks subject chapter topic due_date priority =
      .ok (tasks ++ [⟨subject, chapter, topic, due_date, priority, "Pending"⟩]) ∧
    (addTaskState tasks subject chapter topic due_date priority).length = tasks.length + 1 ∧
    (⟨subject, chapter, topic, due_date, priority, "Pending"⟩ : Task).Status = "Pending" := by
  have h : addTask tasks subject chapter topic due_date priority =
      .ok (tasks ++ [⟨subject, chapter, topic, due_date, priority, "Pending"⟩]) := by
    simp [addTask, hs, hc]
  refine ⟨h, ?_, rfl⟩
  simp [addTaskState, h]

/-- Witness for C8 at a concrete input. -/
theorem addTask_ok_witness :
    addTask [] "Math" "Ch1" "Topic A" "2024-01-10" "High" =
      .ok [⟨"Math", "Ch1", "Topic A", "2024-01-10", "High", "Pending"⟩] ∧
    (addTaskState [] "Math" "Ch1" "Topic A" "2024-01-10" "High").length = 0 + 1 ∧
    (⟨"Math", "Ch1", "Topic A", "2024-01-10", "High", "Pending"⟩ : Task).Status = "Pending" := by
  have h := addTask_ok [] "Math" "Ch1" "Topic A" "2024-01-10" "High"
    (by decide) (by decide)
  simpa using h

theorem log2Aux_spec (fuel : Nat) : ∀ n : Nat, 0 < n → n ≤ fuel →
    2 ^ log2Aux fuel n ≤ n ∧ n < 2 ^ (log2Aux fuel n + 1) := by
  induction fuel with
  | zero => intro n hn hf; omega
  | succ fuel ih =>
    intro n hn hf
    simp only [log2Aux]
    by_cases h2 : 2 ≤ n
    · rw [if_pos h2]
      have hn2 : 0 < n / 2 := Nat.div_pos h2 (by norm_num)
      have hlt : n / 2 < n := Nat.div_lt_self hn (by norm_num)
      have hf2 : n / 2 ≤ fuel := by omega
      obtain ⟨hl, hu⟩ := ih (n / 2) hn2 hf2
      constructor
      · have hm : 2 ^ log2Aux fuel (n / 2) * 2 ≤ n / 2 * 2 :=
          Nat.mul_le_mul_right 2 hl
        have hd2 : n / 2 * 2 ≤ n := Nat.div_mul_le_self n 2
        calc 2 ^ (log2Aux fuel (n / 2) + 1)
            = 2 ^ log2Aux fuel (n / 2) * 2 := by rw [pow_succ]
          _ ≤ n / 2 * 2 := hm
          _ ≤ n := hd2
      · have hu' : n < 2 ^ (log2Aux fuel (n / 2) + 1) * 2 := by
          rw [← Nat.div_lt_iff_lt_mul (by norm_num : 0 < 2)]
          exact hu
        calc n < 2 ^ (log2Aux fuel (n / 2) + 1) * 2 := hu'
          _ = 2 ^ (log2Aux fuel (n / 2) + 1 + 1) := (pow_succ 2 _).symm
    · rw [if_neg h2]
      have : n = 1 := by omega
      subst this
      norm_num

theorem nlog2_spec (n : Nat) (hn : 0 < n) :
    2 ^ nlog2 n ≤ n ∧ n < 2 ^ (nlog2 n + 1) :=
  log2Aux_spec n n hn le_rfl

theorem ilog2_bounds (num den : Nat) (hn : 0 < num) (hd : 0 < den) :
    (2 : ℚ) ^ ilog2 num den ≤ (num : ℚ) / den ∧
    (num : ℚ) / den < (2 : ℚ) ^ (ilog2 num den + 1) := by
  obtain ⟨ha1, ha2⟩ := nlog2_spec num hn
  obtain ⟨hb1, hb2⟩ := nlog2_spec den hd
  have hd0 : (0 : ℚ) < den := by exact_mod_cast hd
  have hn0 : (0 : ℚ) ≤ num := by positivity
  have p2f : (0 : ℚ) < 2 ^ nlog2 den := by positivity
  have p2f1 : (0 : ℚ) < 2 ^ (nlog2 den + 1) := by positivity
  have ha1Q : (2 : ℚ) ^ nlog2 num ≤ num := by exact_mod_cast ha1
  have ha2Q : (num : ℚ) < 2 ^ (nlog2 num + 1) := by exact_mod_cast ha2
  have hb1Q : (2 : ℚ) ^ nlog2 den ≤ den := by exact_mod_cast hb1
  have hb2Q : (den : ℚ) < 2 ^ (nlog2 den + 1) := by exact_mod_cast hb2
  have h2ne : (2 : ℚ) ≠ 0 := by norm_num
  simp only [ilog2]
  split_ifs with htest
  · have htQ : (den : ℚ) * 2 ^ nlog2 num ≤ (num : ℚ) * 2 ^ nlog2 den := by
      exact_mod_cast htest
    constructor
    · rw [zpow_sub₀ h2ne, zpow_natCast, zpow_natCast, div_le_div_iff p2f hd0]
      linarith
    · rw [show ((nlog2 num : ℤ) - (nlog2 den : ℤ) + 1) =
          ((nlog2 num + 1 : ℕ) : ℤ) - ((nlog2 den : ℕ) : ℤ) from by push_cast; ring,
        zpow_sub₀ h2ne, zpow_natCast, zpow_natCast, div_lt_div_iff hd0 p2f]
      have s1 : (num : ℚ) * 2 ^ nlog2 den < 2 ^ (nlog2 num + 1) * 2 ^ nlog2 den :=
        mul_lt_mul_of_pos_right ha2Q p2f
      have s2 : (2 : ℚ) ^ (nlog2 num + 1) * 2 ^ nlog2 den ≤
          2 ^ (nlog2 num + 1) * den :=
        mul_le_mul_of_nonneg_left hb1Q (by positivity)
      linarith
  · have htQ : (num : ℚ) * 2 ^ nlog2 den < (den : ℚ) * 2 ^ nlog2 num := by
      exact_mod_cast Nat.lt_of_not_le htest
    constructor
    · rw [show ((nlog2 num : ℤ) - (nlog2 den : ℤ) - 1) =
          ((nlog2 num : ℕ) : ℤ) - ((nlog2 den + 1 : ℕ) : ℤ) from by push_cast; ring,
        zpow_sub₀ h2ne, zpow_natCast, zpow_natCast, div_le_div_iff p2f1 hd0]
      have s1 : (2 : ℚ) ^ nlog2 num * den ≤ (num : ℚ) * den :=
        mul_le_mul_of_nonneg_right ha1Q (by positivity)
      have s2 : (num : ℚ) * den ≤ (num : ℚ) * 2 ^ (nlog2 den + 1) :=
        mul_le_mul_of_nonneg_left (le_of_lt hb2Q) hn0
      linarith
    · rw [show ((nlog2 num : ℤ) - (nlog2 den : ℤ) - 1 + 1) =
          ((nlog2 num : ℕ) : ℤ) - ((nlog2 den : ℕ) : ℤ) from by ring,
        zpow_sub₀ h2ne, zpow_natCast, zpow_natCast, div_lt_div_iff hd0 p2f]
      linarith

theorem rhalfEven_bounds (a b : Nat) (hb : 0 < b) :
    (a : ℚ) / b - 1 / 2 ≤ (rhalfEven a b : ℚ) ∧
    (rhalfEven a b : ℚ) ≤ (a : ℚ) / b + 1 / 2 := by
  have hb0 : (0 : ℚ) < b := by exact_mod_cast hb
  have hbne : (b : ℚ) ≠ 0 := ne_of_gt hb0
  have hkey : (b : ℚ) * (a / b : ℕ) + (a % b : ℕ) = a := by
    exact_mod_cast Nat.div_add_mod a b
  have habq : (a : ℚ) / b = (a / b : ℕ) + ((a % b : ℕ) : ℚ) / b := by
    field_simp
    linarith
  have hrb0 : (0 : ℚ) ≤ ((a % b : ℕ) : ℚ) / b := by positivity
  have hrb1 : ((a % b : ℕ) : ℚ) / b < 1 := by
    rw [div_lt_one hb0]
    exact_mod_cast Nat.mod_lt a hb
  simp only [rhalfEven]
  split_ifs with h1 h2 h3
  · have hrQ : ((a % b : ℕ) : ℚ) / b < 1 / 2 := by
      rw [div_lt_div_iff hb0 (by norm_num : (0:ℚ) < 2)]
      have : ((2 * (a % b) : ℕ) : ℚ) < b := by exact_mod_cast h1
      push_cast at this
      linarith
    constructor
    · rw [habq]; linarith
    · rw [habq]; linarith
  · have hrQ : 1 / 2 < ((a % b : ℕ) : ℚ) / b := by
      rw [div_lt_div_iff (by norm_num : (0:ℚ) < 2) hb0]
      have : (b : ℚ) < ((2 * (a % b) : ℕ) : ℚ) := by exact_mod_cast h2
      push_cast at this
      linarith
    constructor
    · rw [habq]; push_cast; linarith
    · rw [habq]; push_cast; linarith
  all_goals
    have htie : ((a % b : ℕ) : ℚ) / b = 1 / 2 := by
      have h2b : 2 * (a % b) = b := by omega
      have : ((2 * (a % b) : ℕ) : ℚ) = b := by exact_mod_cast congrArg Nat.cast h2b
      push_cast at this
      rw [div_eq_div_iff hbne (by norm_num : (2:ℚ) ≠ 0)]
      linarith
  · constructor
    · rw [habq]; linarith
    · rw [habq]; linarith
  · constructor
    · rw [habq]; push_cast; linarith
    · rw [habq]; push_cast; linarith

theorem roundAtScale_bounds (num den : Nat) (e : Int) (hd : 0 < den) :
    ((num : ℚ) / den) / (2 : ℚ) ^ e - 1 / 2 ≤ (roundAtScale num den e : ℚ) ∧
    (roundAtScale num den e : ℚ) ≤ ((num : ℚ) / den) / (2 : ℚ) ^ e + 1 / 2 := by
  have hden : (den : ℚ) ≠ 0 := by positivity
  simp only [roundAtScale]
  split_ifs with he
  · obtain ⟨k, rfl⟩ : ∃ k : ℕ, e = (k : ℤ) := ⟨e.toNat, (Int.toNat_of_nonneg he).symm⟩
    have hb : 0 < den * 2 ^ ((k : ℤ)).toNat := by positivity
    have heq : (num : ℚ) / ((den * 2 ^ ((k : ℤ)).toNat : ℕ) : ℚ) =
        ((num : ℚ) / den) / (2 : ℚ) ^ (k : ℤ) := by
      rw [zpow_natCast, Int.toNat_natCast]
      push_cast
      rw [div_div]
    have h := rhalfEven_bounds num (den * 2 ^ ((k : ℤ)).toNat) hb
    rw [heq] at h
    exact h
  · obtain ⟨k, rfl⟩ : ∃ k : ℕ, e = -(k : ℤ) := ⟨(-e).toNat, by omega⟩
    have hkk : (-(-(k : ℤ))).toNat = k := by omega
    have hpk : ((2 : ℚ) ^ k) ≠ 0 := by positivity
    have heq : ((num * 2 ^ (-(-(k : ℤ))).toNat : ℕ) : ℚ) / den =
        ((num : ℚ) / den) / (2 : ℚ) ^ (-(k : ℤ)) := by
      rw [hkk, zpow_neg, zpow_natCast]
      push_cast
      field_simp
    have h := rhalfEven_bounds (num * 2 ^ (-(-(k : ℤ))).toNat) den hd
    rw [heq] at h
    exact h

theorem flScaled_bounds (num den : Nat) (hd : 0 < den) :
    0 ≤ valQ (flScaled num den) ∧
    (num : ℚ) / den -
        ((num : ℚ) / den * (2 : ℚ) ^ (-53 : ℤ) + (2 : ℚ) ^ (-1075 : ℤ)) ≤
      valQ (flScaled num den) ∧
    valQ (flScaled num den) ≤
      (num : ℚ) / den +
        ((num : ℚ) / den * (2 : ℚ) ^ (-53 : ℤ) + (2 : ℚ) ^ (-1075 : ℤ)) := by
  have hε2 : (0 : ℚ) < (2 : ℚ) ^ (-1075 : ℤ) := by positivity
  have hε1 : (0 : ℚ) < (2 : ℚ) ^ (-53 : ℤ) := by positivity
  by_cases h0 : num = 0
  · subst h0
    have hval : valQ (flScaled 0 den) = 0 := by
      simp [flScaled, valQ]
    have hfrac : ((0 : ℕ) : ℚ) / (den : ℚ) = 0 := by norm_num
    rw [hval, hfrac]
    refine ⟨le_refl 0, by linarith, by linarith⟩
  · have hnum : 0 < num := Nat.pos_of_ne_zero h0
    have hv0 : (0 : ℚ) ≤ (num : ℚ) / den := by positivity
    simp only [flScaled, if_neg h0, valQ]
    have h2e : (0 : ℚ) <
        (2 : ℚ) ^ (if ilog2 num den - 52 ≤ -1074 then -1074 else ilog2 num den - 52) := by
      positivity
    obtain ⟨hr1, hr2⟩ := roundAtScale_bounds num den
      (if ilog2 num den - 52 ≤ -1074 then -1074 else ilog2 num den - 52) hd
    have hE : (2 : ℚ) ^
          (if ilog2 num den - 52 ≤ -1074 then -1074 else ilog2 num den - 52) / 2 ≤
        (num : ℚ) / den * (2 : ℚ) ^ (-53 : ℤ) + (2 : ℚ) ^ (-1075 : ℤ) := by
      have h2ne : (2 : ℚ) ≠ 0 := by norm_num
      split_ifs with hcl
      · have : (2 : ℚ) ^ (-1074 : ℤ) / 2 = (2 : ℚ) ^ (-1075 : ℤ) := by
          rw [show (-1075 : ℤ) = -1074 - 1 from by ring, zpow_sub₀ h2ne]
          norm_num
        rw [this]
        have : (0 : ℚ) ≤ (num : ℚ) / den * (2 : ℚ) ^ (-53 : ℤ) :=
          mul_nonneg hv0 (le_of_lt hε1)
        linarith
      · have hL := (ilog2_bounds num den hnum hd).1
        have e1 : (2 : ℚ) ^ (ilog2 num den - 52) / 2 =
            (2 : ℚ) ^ (ilog2 num den - 53) := by
          rw [show (ilog2 num den - 52 : ℤ) = (ilog2 num den - 53) + 1 from by ring,
            zpow_add₀ h2ne, zpow_one]
          ring
        have e2 : (2 : ℚ) ^ (ilog2 num den - 53) =
            (2 : ℚ) ^ ilog2 num den * (2 : ℚ) ^ (-53 : ℤ) := by
          rw [show (ilog2 num den - 53 : ℤ) = ilog2 num den + (-53) from by ring,
            zpow_add₀ h2ne]
        have e3 : (2 : ℚ) ^ ilog2 num den * (2 : ℚ) ^ (-53 : ℤ) ≤
            (num : ℚ) / den * (2 : ℚ) ^ (-53 : ℤ) :=
          mul_le_mul_of_nonneg_right hL (le_of_lt hε1)
        rw [e1, e2]
        linarith
    have hmul1 := mul_le_mul_of_nonneg_right hr2 (le_of_lt h2e)
    have hmul2 := mul_le_mul_of_nonneg_right hr1 (le_of_lt h2e)
    rw [div_sub' _ _ _ (ne_of_gt h2e)] at hmul2
    have hcancel : ((num : ℚ) / den) / (2 : ℚ) ^
          (if ilog2 num den - 52 ≤ -1074 then -1074 else ilog2 num den - 52) *
          (2 : ℚ) ^
          (if ilog2 num den - 52 ≤ -1074 then -1074 else ilog2 num den - 52) =
        (num : ℚ) / den := div_mul_cancel₀ _ (ne_of_gt h2e)
    refine ⟨?_, ?_, ?_⟩
    · positivity
    · nlinarith
    · nlinarith

theorem valQ_scale (k m : Nat) (e : Int) : valQ (k * m, e) = (k : ℚ) * valQ (m, e) := by
  simp only [valQ]
  push_cast
  ring

theorem scaledToFrac_spec (m : Nat) (e : Int) :
    0 < (scaledToFrac m e).2 ∧
    ((scaledToFrac m e).1 : ℚ) / ((scaledToFrac m e).2 : ℚ) = valQ (m, e) := by
  simp only [scaledToFrac, valQ]
  split_ifs with he
  · obtain ⟨k, rfl⟩ : ∃ k : ℕ, e = (k : ℤ) := ⟨e.toNat, (Int.toNat_of_nonneg he).symm⟩
    refine ⟨by norm_num, ?_⟩
    rw [zpow_natCast, Int.toNat_natCast]
    push_cast
    ring
  · obtain ⟨k, rfl⟩ : ∃ k : ℕ, e = -(k : ℤ) := ⟨(-e).toNat, by omega⟩
    have hkk : (-(-(k : ℤ))).toNat = k := by omega
    refine ⟨by positivity, ?_⟩
    rw [hkk, zpow_neg, zpow_natCast]
    push_cast
    rw [div_eq_mul_inv]

theorem floorAtScale_intCast (m : Nat) (e : Int) :
    ((floorAtScale m e : ℕ) : ℤ) = ⌊valQ (m, e)⌋ := by
  simp only [floorAtScale, valQ]
  split_ifs with he
  · obtain ⟨k, rfl⟩ : ∃ k : ℕ, e = (k : ℤ) := ⟨e.toNat, (Int.toNat_of_nonneg he).symm⟩
    rw [zpow_natCast, Int.toNat_natCast]
    rw [show (m : ℚ) * (2 : ℚ) ^ k = ((m * 2 ^ k : ℕ) : ℚ) from by push_cast; ring]
    rw [Int.floor_natCast]
  · obtain ⟨k, rfl⟩ : ∃ k : ℕ, e = -(k : ℤ) := ⟨(-e).toNat, by omega⟩
    have hkk : (-(-(k : ℤ))).toNat = k := by omega
    rw [hkk, zpow_neg, zpow_natCast, ← div_eq_mul_inv]
    rw [show (m : ℚ) / (2 : ℚ) ^ k = ((m : ℤ) : ℚ) / ((2 ^ k : ℕ) : ℚ) from by
      push_cast; ring]
    rw [Rat.floor_intCast_div_natCast]
    rw [show ((m / 2 ^ k : ℕ) : ℤ) = ((m : ℕ) : ℤ) / ((2 ^ k : ℕ) : ℤ)
      from Int.ofNat_div _ _]

theorem within_one_aux (Y Z v e1 e2 : ℚ) (F : ℤ)
    (he1le : e1 ≤ 1 / 1000000) (he2le : e2 ≤ e1)
    (hy1 : v - (v * e1 + e2) ≤ Y) (hy2 : Y ≤ v + (v * e1 + e2))
    (hz1 : 100 * Y - (100 * Y * e1 + e2) ≤ Z)
    (hz2 : Z ≤ 100 * Y + (100 * Y * e1 + e2))
    (hprodY : 100 * Y * e1 ≤ 200 * e1) (hprodv : v * e1 ≤ e1)
    (hF1 : (F : ℚ) ≤ 100 * v) (hF2 : 100 * v < (F : ℚ) + 1) :
    (F : ℚ) - 1 ≤ Z ∧ Z < (F : ℚ) + 2 := by
  constructor <;> linarith

theorem doublePercentTrunc_bounds (c t : Nat) (ht : 0 < t) (hct : c ≤ t) :
    ⌊100 * (c : ℚ) / t⌋ - 1 ≤ (doublePercentTrunc c t : ℤ) ∧
    (doublePercentTrunc c t : ℤ) ≤ ⌊100 * (c : ℚ) / t⌋ + 1 := by
  have ht0 : (0 : ℚ) < t := by exact_mod_cast ht
  have hv0 : (0 : ℚ) ≤ (c : ℚ) / t := by positivity
  have hv1 : (c : ℚ) / t ≤ 1 := by
    rw [div_le_one ht0]
    exact_mod_cast hct
  have hε1 : (0 : ℚ) < (2 : ℚ) ^ (-53 : ℤ) := by positivity
  have hε2 : (0 : ℚ) < (2 : ℚ) ^ (-1075 : ℤ) := by positivity
  have hε1v : (2 : ℚ) ^ (-53 : ℤ) = 1 / 9007199254740992 := by
    rw [show (-53 : ℤ) = -(53 : ℕ) from by norm_num, zpow_neg, zpow_natCast]
    norm_num
  have hε1le : (2 : ℚ) ^ (-53 : ℤ) ≤ 1 / 1000000 := by
    rw [hε1v]
    norm_num
  have hε2le : (2 : ℚ) ^ (-1075 : ℤ) ≤ (2 : ℚ) ^ (-53 : ℤ) := by
    have h1 : (1 : ℚ) ≤ 2 := by norm_num
    have := zpow_le_zpow_right₀ h1 (show (-1075 : ℤ) ≤ -53 from by norm_num)
    exact this
  obtain ⟨hy0, hy1, hy2⟩ := flScaled_bounds c t ht
  obtain ⟨hp2, hpv⟩ := scaledToFrac_spec (100 * (flScaled c t).1) (flScaled c t).2
  rw [valQ_scale] at hpv
  simp only [Prod.mk.eta] at hpv
  push_cast at hpv
  obtain ⟨hz0, hz1, hz2⟩ := flScaled_bounds
    (scaledToFrac (100 * (flScaled c t).1) (flScaled c t).2).1
    (scaledToFrac (100 * (flScaled c t).1) (flScaled c t).2).2 hp2
  rw [hpv] at hz1 hz2
  have hprodv : (c : ℚ) / t * (2 : ℚ) ^ (-53 : ℤ) ≤ (2 : ℚ) ^ (-53 : ℤ) := by
    nlinarith
  have hY2 : valQ (flScaled c t) ≤ 2 := by linarith
  have hprodY : 100 * valQ (flScaled c t) * (2 : ℚ) ^ (-53 : ℤ) ≤
      200 * (2 : ℚ) ^ (-53 : ℤ) := by
    nlinarith
  have hrate : (doublePercentTrunc c t : ℤ) =
      ⌊valQ (flScaled
        (scaledToFrac (100 * (flScaled c t).1) (flScaled c t).2).1
        (scaledToFrac (100 * (flScaled c t).1) (flScaled c t).2).2)⌋ := by
    exact floorAtScale_intCast _ _
  have hF1 : ((⌊100 * (c : ℚ) / t⌋ : ℤ) : ℚ) ≤ 100 * ((c : ℚ) / t) := by
    rw [← mul_div_assoc]
    exact Int.floor_le _
  have hF2 : 100 * ((c : ℚ) / t) < ((⌊100 * (c : ℚ) / t⌋ : ℤ) : ℚ) + 1 := by
    rw [← mul_div_assoc]
    exact Int.lt_floor_add_one _
  have haux := within_one_aux (valQ (flScaled c t))
    (valQ (flScaled
      (scaledToFrac (100 * (flScaled c t).1) (flScaled c t).2).1
      (scaledToFrac (100 * (flScaled c t).1) (flScaled c t).2).2))
    ((c : ℚ) / t) ((2 : ℚ) ^ (-53 : ℤ)) ((2 : ℚ) ^ (-1075 : ℤ))
    ⌊100 * (c : ℚ) / t⌋ hε1le hε2le hy1 hy2 hz1 hz2 hprodY hprodv hF1 hF2
  constructor
  · rw [hrate, Int.le_floor]
    push_cast
    linarith [haux.1]
  · rw [hrate]
    have hlt : ⌊valQ (flScaled
        (scaledToFrac (100 * (flScaled c t).1) (flScaled c t).2).1
        (scaledToFrac (100 * (flScaled c t).1) (flScaled c t).2).2)⌋ <
        ⌊100 * (c : ℚ) / t⌋ + 2 := by
      rw [Int.floor_lt]
      push_cast
      linarith [haux.2]
    omega

/-- C1 counterexample: on three tasks with statuses
`["Done", "Done", "Pending"]` the code computes `int((2/3)*100) = 66`,
while the claimed nearest-integer rounding of `100 * 2 / 3 = 66.67` is `67`;
so `completionRatePercent` is not `round(100 * countDone / totalTasks)`. -/
theorem completionRate_not_round :
    (computeKpis [doneTask, doneTask, pendingTask]).completionRatePercent = 66 ∧
    specCompletionRateRound
      (([doneTask, doneTask, pendingTask].filter (fun t => t.Status == "Done")).length)
      ([doneTask, doneTask, pendingTask].length) = 67 ∧
    (computeKpis [doneTask, doneTask, pendingTask]).completionRatePercent ≠
      specCompletionRateRound
        (([doneTask, doneTask, pendingTask].filter (fun t => t.Status == "Done")).length)
        ([doneTask, doneTask, pendingTask].length) := by
  decide

/-- The dashboard rate truncates the IEEE-double product, which can dip
below the exact percentage: at 29 completed of 100 tasks the double
evaluation of `(29/100)*100` is 28.999999999999996, so the code shows 28
while the exact value (and its floor and rounding) is 29. -/
theorem completionRate_double_dip :
    (computeKpis
      (List.replicate 29 doneTask ++ List.replicate 71 pendingTask)).completionRatePercent
      = 28 ∧
    100 * 29 / 100 = 29 := by
  constructor
  · decide
  · norm_num

/-- C1 (amended): for every non-empty task collection,
`completionRatePercent` is the truncation of the IEEE-754 binary64
evaluation of `(countDone/totalTasks)*100`, which always lies within one of
the exact `floor(100 * countDone / totalTasks)` (it is neither the exact
rounding — 66 versus 67 at two Done of three — nor always the exact floor —
28 versus 29 at 29 Done of 100); for two tasks with statuses
`["Done", "Pending"]` it equals 50. -/
theorem completionRate_within_one_of_floor (tasks : List Task) (h : tasks ≠ []) :
    (⌊100 * (((tasks.filter (fun t => t.Status == "Done")).length : ℚ)) /
          (tasks.length : ℚ)⌋ - 1 ≤
        ((computeKpis tasks).completionRatePercent : ℤ) ∧
      ((computeKpis tasks).completionRatePercent : ℤ) ≤
        ⌊100 * (((tasks.filter (fun t => t.Status == "Done")).length : ℚ)) /
          (tasks.length : ℚ)⌋ + 1) ∧
    (computeKpis [doneTask, pendingTask]).completionRatePercent = 50 := by
  constructor
  · have hpos : 0 < tasks.length := List.length_pos.mpr h
    have hct : (tasks.filter (fun t => t.Status == "Done")).length ≤ tasks.length :=
      List.length_filter_le _ tasks
    have hrw : (computeKpis tasks).completionRatePercent =
        doublePercentTrunc (tasks.filter (fun t => t.Status == "Done")).length
          tasks.length := by
      simp only [computeKpis, hpos, if_pos]
    rw [hrw]
    exact doublePercentTrunc_bounds _ _ hpos hct
  · decide

/-- Witness for C1 (amended) at the two-task scenario. -/
theorem completionRate_within_one_of_floor_witness :
    ([doneTask, pendingTask] : List Task) ≠ [] ∧
    ((⌊100 * ((([doneTask, pendingTask].filter (fun t => t.Status == "Done")).length : ℚ)) /
          (([doneTask, pendingTask] : List Task).length : ℚ)⌋ - 1 ≤
        ((computeKpis [doneTask, pendingTask]).completionRatePercent : ℤ) ∧
      ((computeKpis [doneTask, pendingTask]).completionRatePercent : ℤ) ≤
        ⌊100 * ((([doneTask, pendingTask].filter (fun t => t.Status == "Done")).length : ℚ)) /
          (([doneTask, pendingTask] : List Task).length : ℚ)⌋ + 1) ∧
     (computeKpis [doneTask, pendingTask]).completionRatePercent = 50) :=
  ⟨by decide, completionRate_within_one_of_floor [doneTask, pendingTask] (by decide)⟩

/-- C2 counterexample: a whitespace-only subject `" "` passes the Python
truthiness guard `if subject and chapter:`, so the task is appended and the
store grows, contrary to the claim that whitespace-only input fails. -/
theorem addTask_whitespace_accepted :
    addTask [] " " "Ch1" "Topic A" "2024-01-10" "High" =
      .ok [⟨" ", "Ch1", "Topic A", "2024-01-10", "High", "Pending"⟩] ∧
    (addTaskState [] " " "Ch1" "Topic A" "2024-01-10" "High").length = 1 :=
  ⟨rfl, rfl⟩

/-- C2 (amended): for every input where subject or chapter is the empty
string, "Add Task" fails with `ValidationError` and the task collection is
left unchanged (same list, hence same length and elements); whitespace-only
values are not rejected. -/
theorem addTask_empty_validationError (tasks : List Task)
    (subject chapter topic due_date priority : String)
    (h : subject = "" ∨ chapter = "") :
    addTask tasks subject chapter topic due_date priority = .error .ValidationError ∧
    addTaskState tasks subject chapter topic due_date priority = tasks := by
  have hguard : ¬(subject ≠ "" ∧ chapter ≠ "") := by
    rcases h with h | h <;> simp [h]
  have herr : addTask tasks subject chapter topic due_date priority =
      .error .ValidationError := by
    simp [addTask, hguard]
  exact ⟨herr, by simp [addTaskState, herr]⟩

/-- Witness for C2 (amended): empty subject at a concrete store. -/
theorem addTask_empty_validationError_witness :
    (("" : String) = "" ∨ ("Ch1" : String) = "") ∧
    (addTask [pendingTask] "" "Ch1" "Topic A" "2024-01-10" "High" =
       .error .ValidationError ∧
     addTaskState [pendingTask] "" "Ch1" "Topic A" "2024-01-10" "High" = [pendingTask]) :=
  ⟨Or.inl rfl,
    addTask_empty_validationError [pendingTask] "" "Ch1" "Topic A" "2024-01-10" "High"
      (Or.inl rfl)⟩

/-- C3 counterexample: "Save Link" and "Add Video" append even when the
content is the empty string — there is no validation in either handler, so
a resource with empty content lands in the collection instead of a
`ValidationError`. -/
theorem addResource_empty_content_appended :
    saveLink [] "Math" "" "" = [⟨"Math", "Link", "", some ""⟩] ∧
    (saveLink [] "Math" "" "").length = 1 ∧
    addVideo [] "Math" "" = [⟨"Math", "Video", "", none⟩] ∧
    (addVideo [] "Math" "").length = 1 := by
  decide

/-- C3 (amended): for every resource store and every input — empty content
included — "Save Link" and "Add Video" append exactly one new resource of
the corresponding kind at the end of the collection; no input is rejected. -/
theorem addResource_appends_unconditionally (resources : List Resource)
    (subject url desc video_url : String) :
    saveLink resources subject url desc =
      resources ++ [⟨subject, "Link", url, some desc⟩] ∧
    (saveLink resources subject url desc).length = resources.length + 1 ∧
    addVideo resources subject video_url =
      resources ++ [⟨subject, "Video", video_url, none⟩] ∧
    (addVideo resources subject video_url).length = resources.length + 1 := by
  refine ⟨rfl, ?_, rfl, ?_⟩ <;> simp [saveLink, addVideo]

/-- C5: `removeTask` fails with `NotFoundError` on every out-of-range
position, and on an in-range position `i` removes exactly the task at `i`,
leaving the elements before and after it in their original relative order. -/
theorem removeTask_spec (tasks : List Task) (i : Nat) :
    (tasks.length ≤ i → removeTask tasks i = .error .NotFoundError) ∧
    (i < tasks.length →
      removeTask tasks i = .ok (tasks.take i ++ tasks.drop (i + 1))) := by
  constructor
  · intro h
    have hni : ¬ i < tasks.length := Nat.not_lt.mpr h
    simp [removeTask, hni]
  · intro h
    simp [removeTask, h, List.eraseIdx_eq_take_drop_succ]

/-- Witness for C5 at a two-element store: position 2 is out of range,
position 0 removes the first task. -/
theorem removeTask_spec_witness :
    (([doneTask, pendingTask] : List Task).length ≤ 2 ∧
      removeTask [doneTask, pendingTask] 2 = .error .NotFoundError) ∧
    (0 < ([doneTask, pendingTask] : List Task).length ∧
      removeTask [doneTask, pendingTask] 0 =
        .ok (([doneTask, pendingTask] : List Task).take 0 ++
          ([doneTask, pendingTask] : List Task).drop 1)) :=
  ⟨⟨by decide, (removeTask_spec [doneTask, pendingTask] 2).1 (by decide)⟩,
   ⟨by decide, (removeTask_spec [doneTask, pendingTask] 0).2 (by decide)⟩⟩

/-- The reachable task-store states: the store starts empty
(`st.session_state['tasks'] = []`, line 13) and the "Add Task" handler is
the only code that writes to `st.session_state['tasks']`; the task-table
editor's edits are never synced back (lines 141-142). -/
inductive ReachableTasks : List Task → Prop where
  | init : ReachableTasks []
  | add (tasks : List Task) (subject chapter topic due_date priority : String) :
      ReachableTasks tasks →
      ReachableTasks (addTaskState tasks subject chapter topic due_date priority)

/-- C9: in every reachable task-store state, every stored task has status
`"Pending"`: the only write path sets `Status = "Pending"` on creation and
status edits in the table view are never written back. -/
theorem reachable_status_pending (tasks : List Task) (h : ReachableTasks tasks) :
    ∀ t ∈ tasks, t.Status = "Pending" := by
  induction h with
  | init => intro t ht; cases ht
  | add tasks s c top d p _ ih =>
      intro t ht
      by_cases hg : s ≠ "" ∧ c ≠ ""
      · simp only [addTaskState, addTask, if_pos hg] at ht
        rcases List.mem_append.mp ht with ht | ht
        · exact ih t ht
        · rcases List.mem_singleton.mp ht with rfl
          rfl
      · simp only [addTaskState, addTask, if_neg hg] at ht
        exact ih t ht

/-- Witness for C9: the state reached by one successful "Add Task" click on
the empty store is reachable and all its tasks are `"Pending"`. -/
theorem reachable_status_pending_witness :
    ReachableTasks (addTaskState [] "Math" "Ch1" "Topic A" "2024-01-10" "High") ∧
    ∀ t ∈ addTaskState [] "Math" "Ch1" "Topic A" "2024-01-10" "High",
      t.Status = "Pending" :=
  ⟨ReachableTasks.add [] "Math" "Ch1" "Topic A" "2024-01-10" "High" ReachableTasks.init,
   reachable_status_pending _
     (ReachableTasks.add [] "Math" "Ch1" "Topic A" "2024-01-10" "High"
       ReachableTasks.init)⟩

/-- C10: `get_subjects` returns the fixed default list exactly when the task
store is empty (the fallback lives in the accessor itself), and otherwise a
duplicate-free list containing precisely the Subject values of the stored
tasks (order unspecified). -/
theorem get_subjects_spec (tasks : List Task) :
    (tasks = [] → get_subjects tasks = ["Math", "Physics", "History", "Biology"]) ∧
    (tasks ≠ [] →
      (get_subjects tasks).Nodup ∧
      ∀ s, s ∈ get_subjects tasks ↔ ∃ t ∈ tasks, t.Subject = s) := by
  constructor
  · intro h
    simp [get_subjects, h]
  · intro h
    refine ⟨?_, ?_⟩
    · simp only [get_subjects, if_neg h]
      exact List.nodup_dedup _
    · intro s
      simp [get_subjects, h, List.mem_dedup]

theorem mem_foldl_firstSeen (xs : List String) (acc : List String) (x : String) :
    x ∈ xs.foldl (fun a y => if y ∈ a then a else a ++ [y]) acc ↔ x ∈ acc ∨ x ∈ xs := by
  induction xs generalizing acc with
  | nil => simp
  | cons y ys ih =>
    simp only [List.foldl_cons]
    by_cases h : y ∈ acc
    · rw [if_pos h, ih]
      simp only [List.mem_cons]
      constructor
      · rintro (hx | hx)
        · exact Or.inl hx
        · exact Or.inr (Or.inr hx)
      · rintro (hx | hx | hx)
        · exact Or.inl hx
        · exact Or.inl (hx ▸ h)
        · exact Or.inr hx
    · rw [if_neg h, ih]
      simp only [List.mem_append, List.mem_singleton, List.mem_cons]
      tauto

theorem nodup_foldl_firstSeen (xs : List String) (acc : List String) (h : acc.Nodup) :
    (xs.foldl (fun a y => if y ∈ a then a else a ++ [y]) acc).Nodup := by
  induction xs generalizing acc with
  | nil => simpa
  | cons y ys ih =>
    simp only [List.foldl_cons]
    by_cases hy : y ∈ acc
    · rw [if_pos hy]
      exact ih acc h
    · rw [if_neg hy]
      refine ih _ ?_
      simp [List.nodup_append, h, hy]

theorem firstSeen_nodup (xs : List String) : (firstSeen xs).Nodup :=
  nodup_foldl_firstSeen xs [] List.nodup_nil

theorem mem_firstSeen (xs : List String) (x : String) : x ∈ firstSeen xs ↔ x ∈ xs := by
  simpa using mem_foldl_firstSeen xs [] x

theorem insertByCountDesc_perm (p : String × Nat) (l : List (String × Nat)) :
    List.Perm (insertByCountDesc p l) (p :: l) := by
  induction l with
  | nil =>
    simp only [insertByCountDesc]
    exact List.Perm.refl _
  | cons q qs ih =>
    simp only [insertByCountDesc]
    by_cases h : q.2 ≤ p.2
    · rw [if_pos h]
    · rw [if_neg h]
      exact (ih.cons q).trans (List.Perm.swap p q qs)

theorem sortByCountDesc_perm (l : List (String × Nat)) :
    List.Perm (sortByCountDesc l) l := by
  induction l with
  | nil => exact List.Perm.refl _
  | cons p ps ih =>
    simp only [sortByCountDesc, List.foldr_cons]
    exact (insertByCountDesc_perm p (sortByCountDesc ps)).trans (ih.cons p)

theorem insertByCountDesc_pairwise (p : String × Nat) (l : List (String × Nat))
    (h : l.Pairwise (fun a b => b.2 ≤ a.2)) :
    (insertByCountDesc p l).Pairwise (fun a b => b.2 ≤ a.2) := by
  induction l with
  | nil => simp [insertByCountDesc]
  | cons q qs ih =>
    rcases List.pairwise_cons.mp h with ⟨hq, hqs⟩
    simp only [insertByCountDesc]
    by_cases hpq : q.2 ≤ p.2
    · rw [if_pos hpq]
      refine List.pairwise_cons.mpr ⟨?_, h⟩
      intro b hb
      rcases List.mem_cons.mp hb with rfl | hb
      · exact hpq
      · exact le_trans (hq b hb) hpq
    · rw [if_neg hpq]
      refine List.pairwise_cons.mpr ⟨?_, ih hqs⟩
      intro b hb
      have hb' : b = p ∨ b ∈ qs := by
        have hmem := (insertByCountDesc_perm p qs).mem_iff.mp hb
        simpa using hmem
      rcases hb' with rfl | hb'
      · exact Nat.le_of_lt (Nat.lt_of_not_le hpq)
      · exact hq b hb'

theorem sortByCountDesc_pairwise (l : List (String × Nat)) :
    (sortByCountDesc l).Pairwise (fun a b => b.2 ≤ a.2) := by
  induction l with
  | nil => simp [sortByCountDesc]
  | cons p ps ih =>
    simp only [sortByCountDesc, List.foldr_cons]
    exact insertByCountDesc_pairwise p (sortByCountDesc ps) ih

theorem value_counts_fst_perm (xs : List String) :
    List.Perm ((value_counts xs).map Prod.fst) (firstSeen xs) := by
  have h := (sortByCountDesc_perm ((firstSeen xs).map (fun k => (k, xs.count k)))).map
    (Prod.fst (α := String) (β := Nat))
  rw [List.map_map] at h
  have h2 : List.map (Prod.fst ∘ fun k => ((k : String), xs.count k)) (firstSeen xs) =
      firstSeen xs := by
    have hc : (Prod.fst ∘ fun k => ((k : String), xs.count k)) = fun k => k := rfl
    rw [hc, List.map_id']
  rw [h2] at h
  exact h

theorem value_counts_spec (xs : List String) :
    ((value_counts xs).map Prod.fst).Nodup ∧
    (∀ s, s ∈ (value_counts xs).map Prod.fst ↔ s ∈ xs) ∧
    (∀ p ∈ value_counts xs, p.2 = xs.count p.1) ∧
    (value_counts xs).Pairwise (fun a b => b.2 ≤ a.2) := by
  refine ⟨?_, ?_, ?_, ?_⟩
  · exact ((value_counts_fst_perm xs).nodup_iff).mpr (firstSeen_nodup xs)
  · intro s
    rw [(value_counts_fst_perm xs).mem_iff, mem_firstSeen]
  · intro p hp
    have hp' : p ∈ (firstSeen xs).map (fun k => (k, xs.count k)) :=
      (sortByCountDesc_perm _).mem_iff.mp hp
    rcases List.mem_map.mp hp' with ⟨k, _, rfl⟩
    rfl
  · exact sortByCountDesc_pairwise _

/-- C4 counterexample: on three tasks with subjects
`["Math", "Physics", "Physics"]`, `value_counts` orders the pairs by count
descending, so `countBySubject` yields `[("Physics", 2), ("Math", 1)]`,
not the first-seen order `["Math", "Physics"]` of the distinct subjects. -/
theorem countBySubject_not_firstSeen_order :
    countBySubject mathPhysTasks = [("Physics", 2), ("Math", 1)] ∧
    firstSeen (mathPhysTasks.map (·.Subject)) = ["Math", "Physics"] ∧
    (countBySubject mathPhysTasks).map Prod.fst ≠
      firstSeen (mathPhysTasks.map (·.Subject)) := by
  decide

/-- C4 (amended): `countBySubject` and `countByStatus` return one
(key, count) pair per distinct value with its number of occurrences, and
the pairs appear in descending order of count (`value_counts` order, most
frequent first), deterministically for a given input — not in first-seen
order of the distinct values. -/
theorem counts_grouping_spec (tasks : List Task) :
    (((countBySubject tasks).map Prod.fst).Nodup ∧
     (∀ s, s ∈ (countBySubject tasks).map Prod.fst ↔ s ∈ tasks.map (·.Subject)) ∧
     (∀ p ∈ countBySubject tasks, p.2 = (tasks.map (·.Subject)).count p.1) ∧
     (countBySubject tasks).Pairwise (fun a b => b.2 ≤ a.2)) ∧
    (((countByStatus tasks).map Prod.fst).Nodup ∧
     (∀ s, s ∈ (countByStatus tasks).map Prod.fst ↔ s ∈ tasks.map (·.Status)) ∧
     (∀ p ∈ countByStatus tasks, p.2 = (tasks.map (·.Status)).count p.1) ∧
     (countByStatus tasks).Pairwise (fun a b => b.2 ≤ a.2)) := by
  simp only [countBySubject, countByStatus]
  exact ⟨value_counts_spec (tasks.map (·.Subject)),
    value_counts_spec (tasks.map (·.Status))⟩

/-- Witness for C10: both branches at concrete stores — the empty store
yields the defaults, a one-task store yields its subject, duplicate-free. -/
theorem get_subjects_spec_witness :
    (([] : List Task) = [] ∧
      get_subjects [] = ["Math", "Physics", "History", "Biology"]) ∧
    (([pendingTask] : List Task) ≠ [] ∧
      ((get_subjects [pendingTask]).Nodup ∧
       ∀ s, s ∈ get_subjects [pendingTask] ↔ ∃ t ∈ [pendingTask], t.Subject = s)) :=
  ⟨⟨rfl, (get_subjects_spec []).1 rfl⟩,
   ⟨by decide, (get_subjects_spec [pendingTask]).2 (by decide)⟩⟩

end StudyPlanner
